import Mathlib

/-!
Verification of the PTY session manager of the xTerm repository
(`src-tauri/src/pty.rs`).

The development has two layers:

* a *command layer*: each Tauri command (`pty_spawn`, `pty_write`,
  `pty_resize`, `pty_kill`) and the exit-waiter's registry-removal step are
  embedded as pure Lean functions over an explicit registry state; the OS
  (PTY allocation, `read`, `write`, `resize`, `kill`, `wait`) is an oracle
  parameter supplying the outcome of each syscall;

* a *trace layer*: a small-step operational model of a process running any
  number of sessions, where every lock-free interleaving of the per-session
  reader thread, the per-session exit-waiter thread and the command handlers
  is a schedule (a list of labels).  The event list of a state is the order
  in which `app.emit` calls were issued.

Machine integers are modelled as `Nat` with explicit reduction modulo `2^32`
where the Rust code uses `u32` arithmetic (the `AtomicU32::fetch_add` session
counter, which wraps on overflow).  Errors are modelled as the exact `String`
values the Rust code returns.
-/

namespace XTerm

/-- `u32` modulus: `next_id` is an `AtomicU32`, so `fetch_add` wraps at `2^32`. -/
def u32Mod : Nat := 4294967296

/-! ## UTF-8, as used by `String::from_utf8_lossy` and `str::as_bytes` -/

/-- The Unicode replacement character `U+FFFD` substituted by
`String::from_utf8_lossy` for each maximal invalid byte subsequence. -/
def replacementChar : Char := Char.ofNat 0xFFFD

/-- Is `b` a UTF-8 continuation byte (`0x80..=0xBF`)? -/
def isCont (b : Nat) : Bool := 0x80 ≤ b && b ≤ 0xBF

/-- Allowed range of the second byte of a multi-byte sequence, per lead byte
(the restricted ranges exclude overlong encodings and surrogates, as Rust's
`core::str` validity checks do). -/
def cont2ok (lead b2 : Nat) : Bool :=
  if lead == 0xE0 then 0xA0 ≤ b2 && b2 ≤ 0xBF
  else if lead == 0xED then 0x80 ≤ b2 && b2 ≤ 0x9F
  else if lead == 0xF0 then 0x90 ≤ b2 && b2 ≤ 0xBF
  else if lead == 0xF4 then 0x80 ≤ b2 && b2 ≤ 0x8F
  else isCont b2

/-- `String::from_utf8_lossy` (on a byte list, producing the character list):
well-formed UTF-8 sequences decode to their scalar value, each maximal invalid
subsequence is replaced by `U+FFFD`.  Total: malformed input never fails.
The `fuel` argument is purely a structural termination device: every step
consumes at least one byte, so `l.length` fuel (supplied by `utf8Lossy`)
always suffices and the fuel never runs out. -/
def utf8LossyF : Nat → List Nat → List Char
  | 0, _ => []
  | _ + 1, [] => []
  | fuel + 1, b :: rest =>
    if b < 0x80 then
      Char.ofNat b :: utf8LossyF fuel rest
    else if b < 0xC2 then
      replacementChar :: utf8LossyF fuel rest
    else if b ≤ 0xDF then
      match rest with
      | b2 :: r2 =>
        if isCont b2 then
          Char.ofNat ((b - 0xC0) * 0x40 + (b2 - 0x80)) :: utf8LossyF fuel r2
        else replacementChar :: utf8LossyF fuel rest
      | [] => [replacementChar]
    else if b ≤ 0xEF then
      match rest with
      | b2 :: r2 =>
        if cont2ok b b2 then
          match r2 with
          | b3 :: r3 =>
            if isCont b3 then
              Char.ofNat ((b - 0xE0) * 0x1000 + (b2 - 0x80) * 0x40 + (b3 - 0x80))
                :: utf8LossyF fuel r3
            else replacementChar :: utf8LossyF fuel r2
          | [] => [replacementChar]
        else replacementChar :: utf8LossyF fuel rest
      | [] => [replacementChar]
    else if b ≤ 0xF4 then
      match rest with
      | b2 :: r2 =>
        if cont2ok b b2 then
          match r2 with
          | b3 :: r3 =>
            if isCont b3 then
              match r3 with
              | b4 :: r4 =>
                if isCont b4 then
                  Char.ofNat ((b - 0xF0) * 0x40000 + (b2 - 0x80) * 0x1000 +
                      (b3 - 0x80) * 0x40 + (b4 - 0x80)) :: utf8LossyF fuel r4
                else replacementChar :: utf8LossyF fuel r3
              | [] => [replacementChar]
            else replacementChar :: utf8LossyF fuel r2
          | [] => [replacementChar]
        else replacementChar :: utf8LossyF fuel rest
      | [] => [replacementChar]
    else
      replacementChar :: utf8LossyF fuel rest

/-- `String::from_utf8_lossy` on a byte list: run the decoder with enough
fuel (one unit per byte bounds the number of decoded characters). -/
def utf8Lossy (l : List Nat) : List Char := utf8LossyF l.length l

/-- The text of one `data` event: the lossy decoding, packed into a `String`
(`String::from_utf8_lossy(&buf[..n]).to_string()`). -/
def lossyString (bs : List Nat) : String := String.mk (utf8Lossy bs)

/-- UTF-8 encoding of one scalar value (`str::as_bytes`, per character). -/
def utf8EncodeChar (c : Char) : List Nat :=
  let n := c.toNat
  if n < 0x80 then [n]
  else if n < 0x800 then [0xC0 + n / 0x40, 0x80 + n % 0x40]
  else if n < 0x10000 then
    [0xE0 + n / 0x1000, 0x80 + (n / 0x40) % 0x40, 0x80 + n % 0x40]
  else
    [0xF0 + n / 0x40000, 0x80 + (n / 0x1000) % 0x40,
     0x80 + (n / 0x40) % 0x40, 0x80 + n % 0x40]

/-- `data.as_bytes()`: the UTF-8 bytes of a Lean `String`. -/
def strBytes (s : String) : List Nat := (s.data.map utf8EncodeChar).flatten

/-! ## `session_id.parse::<u32>()` -/

/-- Is `c` an ASCII decimal digit? -/
def isDigit (c : Char) : Bool := '0' ≤ c && c ≤ '9'

/-- `str::parse::<u32>` on the session-id string: an optional single leading
`+`, then one or more ASCII digits, value at most `u32::MAX`; everything else
(empty string, other characters, a `-` sign, overflow) fails. -/
def parseU32 (s : String) : Option Nat :=
  let ds := match s.data with
    | '+' :: rest => rest
    | l => l
  if ds.isEmpty then none
  else if ds.all isDigit then
    let v := ds.foldl (fun a c => a * 10 + (c.toNat - 48)) 0
    if v < u32Mod then some v else none
  else none

/-! ## Command layer: registry and per-command models

A `Session` mirrors the Rust `Session` (`Mutex<master>`, `Mutex<writer>`,
`Mutex<killer>`): one poison flag per lock, plus the observable state behind
each lock — the bytes absorbed by the child's input stream, the PTY geometry,
and whether a kill was requested. -/

structure Session where
  writerPoisoned : Bool
  masterPoisoned : Bool
  killerPoisoned : Bool
  written : List Nat
  size : Nat × Nat
  killRequested : Bool
deriving DecidableEq, Repr

/-- A fresh session as built by `pty_spawn` for geometry `(cols, rows)`. -/
def Session.init (cols rows : Nat) : Session :=
  ⟨false, false, false, [], (cols, rows), false⟩

/-- The `PtyState.sessions` registry: the `HashMap<SessionId, Arc<Session>>`
(as an association list) together with the poison state of its `Mutex`. -/
structure Reg where
  sessionsPoisoned : Bool
  sessions : List (Nat × Session)
deriving DecidableEq, Repr

/-- `HashMap::get` (first matching key). -/
def lookupA (id : Nat) : List (Nat × Session) → Option Session
  | [] => none
  | (k, v) :: rest => if k = id then some v else lookupA id rest

/-- `HashMap::insert` (replaces an existing binding for the key, else appends). -/
def insertA (id : Nat) (v : Session) : List (Nat × Session) → List (Nat × Session)
  | [] => [(id, v)]
  | (k, w) :: rest =>
    if k = id then (id, v) :: rest else (k, w) :: insertA id v rest

/-- `HashMap::remove`. -/
def removeA (id : Nat) : List (Nat × Session) → List (Nat × Session)
  | [] => []
  | (k, w) :: rest => if k = id then rest else (k, w) :: removeA id rest

/-- Replace the session stored under `id` (the per-session state behind the
`Arc` is mutated in place; the key set is unchanged). -/
def updateA (id : Nat) (v : Session) : List (Nat × Session) → List (Nat × Session)
  | [] => []
  | (k, w) :: rest =>
    if k = id then (k, v) :: rest else (k, w) :: updateA id v rest

/-- Outcome of one underlying OS `write` call, chosen by the environment:
the OS accepts `n` bytes, or the call fails with error text `e`. -/
inductive WOut where
  | accept (n : Nat)
  | fail (e : String)
deriving DecidableEq, Repr

/-- `Write::write_all` (std): repeatedly call `write` on the remaining buffer;
`Ok(0)` is a `WriteZero` error, `Ok(n)` advances by `n`, `Err(e)` aborts.
`sink` is the byte sequence the child's input stream has absorbed so far.
Returns `none` when the oracle script runs out with bytes still unwritten
(the real call would still be blocked in the OS). -/
def writeAll : List WOut → List Nat → List Nat → Option (List Nat × Except String Unit)
  | _, sink, [] => some (sink, .ok ())
  | [], _, _ :: _ => none
  | .accept n :: outs, sink, b :: bs =>
    if n = 0 then some (sink, .error "failed to write whole buffer")
    else writeAll outs (sink ++ (b :: bs).take n) ((b :: bs).drop n)
  | .fail e :: _, sink, _ :: _ => some (sink, .error e)

/-- `pty_write`: parse the id, lock the registry, look up and clone the
session, lock its writer, `write_all` the UTF-8 bytes of `data`.  `none`
models a call still blocked in the OS write. -/
def pty_write (st : Reg) (session_id : String) (data : String) (outs : List WOut) :
    Option (Reg × Except String Unit) :=
  match parseU32 session_id with
  | none => some (st, .error "invalid session_id")
  | some id =>
    if st.sessionsPoisoned then some (st, .error "PtyState poisoned")
    else
      match lookupA id st.sessions with
      | none => some (st, .error "Unavailable session")
      | some sess =>
        if sess.writerPoisoned then some (st, .error "writer poisoned")
        else
          match writeAll outs sess.written (strBytes data) with
          | none => none
          | some (sink, res) =>
            some ({st with sessions := updateA id {sess with written := sink} st.sessions}, res)

/-- `pty_resize`: parse the id, look up the session, lock the master, resize.
`osRes` is the outcome of the OS resize call (`none` = success). -/
def pty_resize (st : Reg) (session_id : String) (cols rows : Nat)
    (osRes : Option String) : Reg × Except String Unit :=
  match parseU32 session_id with
  | none => (st, .error "invalid session_id")
  | some id =>
    if st.sessionsPoisoned then (st, .error "PtyState poisoned")
    else
      match lookupA id st.sessions with
      | none => (st, .error "Unavailable session")
      | some sess =>
        if sess.masterPoisoned then (st, .error "master poisoned")
        else
          match osRes with
          | some e => (st, .error e)
          | none =>
            ({st with sessions := updateA id {sess with size := (cols, rows)} st.sessions},
             .ok ())

/-- `pty_kill`: parse the id, look up the session, lock the killer, kill.
`osRes` is the outcome of the OS termination call (`none` = success). -/
def pty_kill (st : Reg) (session_id : String) (osRes : Option String) :
    Reg × Except String Unit :=
  match parseU32 session_id with
  | none => (st, .error "invalid session_id")
  | some id =>
    if st.sessionsPoisoned then (st, .error "PtyState poisoned")
    else
      match lookupA id st.sessions with
      | none => (st, .error "Unavailable session")
      | some sess =>
        if sess.killerPoisoned then (st, .error "killer poisoned")
        else
          match osRes with
          | some e => (st, .error e)
          | none =>
            ({st with sessions := updateA id {sess with killRequested := true} st.sessions},
             .ok ())

/-- Environment outcome of the fallible steps of `pty_spawn`, in source
order: `openpty`, `take_writer`, `try_clone_reader`, `spawn_command` can each
fail; otherwise everything up to the registry insertion succeeds. -/
inductive SpawnEnv where
  | openptyErr (e : String)
  | writerErr (e : String)
  | readerErr (e : String)
  | commandErr (e : String)
  | ok
deriving DecidableEq, Repr

/-- `pty_spawn`, command layer.  Returns the registry, the counter, the result
returned to the caller, and whether the two background threads were spawned.
The counter (`next_id.fetch_add(1, Ordering::Relaxed)`) is read and bumped
(wrapping at `2^32`) only after `spawn_command` succeeded; the session is
inserted before any thread is spawned. -/
def pty_spawnA (st : Reg) (nextId : Nat) (cols rows : Nat) (env : SpawnEnv) :
    Reg × Nat × Except String Nat × Bool :=
  match env with
  | .openptyErr e => (st, nextId, .error e, false)
  | .writerErr e => (st, nextId, .error e, false)
  | .readerErr e => (st, nextId, .error e, false)
  | .commandErr e => (st, nextId, .error e, false)
  | .ok =>
    let id := nextId
    let nextId' := (nextId + 1) % u32Mod
    if st.sessionsPoisoned then (st, nextId', .error "PtyState poisoned", false)
    else
      ({st with sessions := insertA id (Session.init cols rows) st.sessions},
       nextId', .ok id, true)

/-- The exit-waiter's registry removal
(`if let Ok(mut sessions) = sessions_for_exit.lock() { sessions.remove(&id); }`):
when the registry lock is poisoned the removal is skipped and no error is
surfaced anywhere (the second component is the surfaced error, always `none`). -/
def exitWaiterRemove (st : Reg) (id : Nat) : Reg × Option String :=
  if st.sessionsPoisoned then (st, none)
  else ({st with sessions := removeA id st.sessions}, none)

/-! ## Trace layer: interleaving semantics of one process

The reader thread and the exit-waiter thread of a session share nothing but
the event sink and (for the waiter) the registry; the code contains no
synchronization between them.  Every interleaving of their blocking points is
therefore a possible execution, encoded as a list of labels.  In particular
`child.wait()` may return (the process died) while the reader still holds
buffered, not yet delivered output in the PTY, so a `waiterEmit` step may be
scheduled between two `readerRead` steps of the same session.

Locks are never poisoned in this layer (nothing in the model panics);
poisoning is analysed in the command layer above. -/

/-- The outcome of one blocking `reader.read(&mut buf)` call: `ok bytes`
(`Ok(n)` with the bytes placed in the buffer; `ok []` is `Ok(0)`, the
end-of-stream) or a read error. -/
inductive ReadResult where
  | ok (bytes : List Nat)
  | err
deriving DecidableEq, Repr

/-- Does this read outcome terminate the reader loop (`Ok(0)` or `Err(_)`)? -/
def isTerm : ReadResult → Bool
  | .ok [] => true
  | .ok (_ :: _) => false
  | .err => true

/-- Bytes delivered by a read outcome. -/
def bytesOf : ReadResult → List Nat
  | .ok bs => bs
  | .err => []

/-- The fixed buffer the reader passes to `read` is `[0u8; 4096]`; the OS
returns at most this many bytes per read. -/
def readerBufSize : Nat := 4096

/-- An emitted event: `app.emit("pty:data", …)` or `app.emit("pty:exit", …)`.
The session id is the numeric id (serialized to the string payload). -/
inductive Event where
  | data (sid : Nat) (text : String)
  | exit (sid : Nat) (code : Nat)
deriving DecidableEq, Repr

/-- Session id carried by an event. -/
def Event.sid : Event → Nat
  | .data s _ => s
  | .exit s _ => s

/-- Is `e` a `data` event of session `sid`? -/
def isDataFor (sid : Nat) : Event → Bool
  | .data s _ => s == sid
  | .exit _ _ => false

/-- Is `e` an `exit` event of session `sid`? -/
def isExitFor (sid : Nat) : Event → Bool
  | .data _ _ => false
  | .exit s _ => s == sid

/-- The `data` events of session `sid`, in emission order. -/
def dataFor (sid : Nat) (es : List Event) : List Event := es.filter (isDataFor sid)

/-- The `exit` events of session `sid`, in emission order. -/
def exitsFor (sid : Nat) (es : List Event) : List Event := es.filter (isExitFor sid)

/-- The events the reader loop of session `sid` emits while consuming the
given read outcomes: one `data` event per successful non-empty read, stopping
(emitting nothing further) at the first `Ok(0)` or `Err`. -/
def readerEvents (sid : Nat) : List ReadResult → List Event
  | [] => []
  | r :: rest =>
    if isTerm r then []
    else Event.data sid (lossyString (bytesOf r)) :: readerEvents sid rest

/-- The reader thread of one session: `orig` is the full sequence of read
outcomes the OS will deliver, `pos` how many it has consumed, `alive` whether
the loop is still running. -/
structure ReaderTask where
  sid : Nat
  orig : List ReadResult
  pos : Nat
  alive : Bool
deriving DecidableEq, Repr

/-- Phase of the exit-waiter thread: blocked in `child.wait()`; exit event
emitted but registry entry not yet removed; finished. -/
inductive WaiterPhase where
  | waiting
  | emitted
  | done
deriving DecidableEq, Repr

/-- The exit-waiter thread of one session: `waitResult` is what
`child.wait().ok().map(|s| s.exit_code())` will produce. -/
structure WaiterTask where
  sid : Nat
  waitResult : Option Nat
  phase : WaiterPhase
deriving DecidableEq, Repr

/-- Global state of the process: the `next_id` counter, the id set of the
sessions registry, the two background threads of every spawned session, the
events emitted so far (in emission order), and two history variables: the ids
returned by successful `spawn` calls and the ids removed from the registry. -/
structure Sys where
  nextId : Nat
  registry : List Nat
  readers : List ReaderTask
  waiters : List WaiterTask
  events : List Event
  spawned : List Nat
  removed : List Nat
deriving DecidableEq, Repr

/-- Initial state (`PtyState::default()`): counter at 1, empty registry. -/
def init : Sys :=
  { nextId := 1, registry := [], readers := [], waiters := [], events := [],
    spawned := [], removed := [] }

/-- A successful `pty_spawn`: the returned id is the current counter value,
the counter is bumped with `u32` wrap, the session is registered, and the two
background threads are created in their initial, not-yet-run state. -/
def stepSpawn (s : Sys) (script : List ReadResult) (w : Option Nat) : Sys :=
  { s with
    nextId := (s.nextId + 1) % u32Mod
    registry := s.registry ++ [s.nextId]
    readers := s.readers ++ [⟨s.nextId, script, 0, true⟩]
    waiters := s.waiters ++ [⟨s.nextId, w, .waiting⟩]
    spawned := s.spawned ++ [s.nextId] }

/-- One iteration of reader thread `i`: consume the next read outcome; emit a
`data` event on a non-empty read, break (no event) on `Ok(0)` or `Err`.
Disabled (`none`) if the thread has finished or is blocked with no outcome
left; the reader never touches the registry. -/
def stepReader (s : Sys) (i : Nat) : Option Sys :=
  match s.readers.get? i with
  | none => none
  | some t =>
    if t.alive then
      match t.orig.get? t.pos with
      | none => none
      | some r =>
        if isTerm r then
          some {s with readers := s.readers.set i {t with pos := t.pos + 1, alive := false}}
        else
          some {s with
            readers := s.readers.set i {t with pos := t.pos + 1},
            events := s.events ++ [Event.data t.sid (lossyString (bytesOf r))]}
    else none

/-- Exit-waiter thread `i` returns from `child.wait()` and emits the single
`exit` event, with code `child.wait().ok().map(|s| s.exit_code()).unwrap_or(1)`
(sentinel `1` when the wait failed). -/
def stepWaiterEmit (s : Sys) (i : Nat) : Option Sys :=
  match s.waiters.get? i with
  | none => none
  | some w =>
    match w.phase with
    | .waiting =>
      some {s with
        waiters := s.waiters.set i {w with phase := .emitted},
        events := s.events ++ [Event.exit w.sid (w.waitResult.getD 1)]}
    | _ => none

/-- Exit-waiter thread `i` locks the registry and removes its session's
entry, then terminates. -/
def stepWaiterRemove (s : Sys) (i : Nat) : Option Sys :=
  match s.waiters.get? i with
  | none => none
  | some w =>
    match w.phase with
    | .emitted =>
      some {s with
        waiters := s.waiters.set i {w with phase := .done},
        registry := s.registry.erase w.sid,
        removed := s.removed ++ [w.sid]}
    | _ => none

/-- A scheduling label: which thread or handler takes its next atomic step,
with the environment's choices attached.  `spawnFail` is a `pty_spawn` call
that failed before the registry insertion (PTY allocation or child start
failure); the command handlers `pty_write`/`pty_resize`/`pty_kill` never
touch the registry, the task lists or the event sink, whatever their
arguments and result. -/
inductive Label where
  | spawnOk (script : List ReadResult) (w : Option Nat)
  | spawnFail
  | readerRead (i : Nat)
  | waiterEmit (i : Nat)
  | waiterRemove (i : Nat)
  | cmdWrite (sid : String)
  | cmdResize (sid : String)
  | cmdKill (sid : String)
deriving DecidableEq, Repr

/-- One atomic step of the process (`none` = label not enabled). -/
def step (s : Sys) : Label → Option Sys
  | .spawnOk script w => some (stepSpawn s script w)
  | .spawnFail => some s
  | .readerRead i => stepReader s i
  | .waiterEmit i => stepWaiterEmit s i
  | .waiterRemove i => stepWaiterRemove s i
  | .cmdWrite _ => some s
  | .cmdResize _ => some s
  | .cmdKill _ => some s

/-- Run a schedule. -/
def run (s : Sys) : List Label → Option Sys
  | [] => some s
  | l :: ls =>
    match step s l with
    | none => none
    | some s' => run s' ls

/-- Number of successful spawns in a schedule. -/
def countSpawns (ls : List Label) : Nat :=
  (ls.filter fun l => match l with | .spawnOk _ _ => true | _ => false).length

/-- Is the exit-waiter still holding its registry entry (phase not `done`)? -/
def WaiterTask.activeB (w : WaiterTask) : Bool :=
  match w.phase with
  | .done => false
  | _ => true

/-! ## Helper lemmas -/

theorem get?_decomp {α : Type} {l : List α} {i : Nat} {a : α} (h : l.get? i = some a) :
    l = l.take i ++ a :: l.drop (i + 1) := by
  rw [List.get?_eq_getElem?] at h
  obtain ⟨hlen, hget⟩ := List.getElem?_eq_some_iff.mp h
  conv_lhs => rw [← List.take_append_drop i l, List.drop_eq_getElem_cons hlen, hget]

theorem set_decomp {α : Type} {l : List α} {i : Nat} {a : α} (h : l.get? i = some a)
    (v : α) : l.set i v = l.take i ++ v :: l.drop (i + 1) := by
  rw [List.get?_eq_getElem?] at h
  obtain ⟨hlen, _⟩ := List.getElem?_eq_some_iff.mp h
  exact List.set_eq_take_cons_drop v hlen

theorem readerEvents_append_of_noTerm {sid : Nat} {xs : List ReadResult}
    (h : ∀ r ∈ xs, isTerm r = false) (ys : List ReadResult) :
    readerEvents sid (xs ++ ys) =
      xs.map (fun r => Event.data sid (lossyString (bytesOf r))) ++ readerEvents sid ys := by
  induction xs with
  | nil => simp
  | cons x xs ih =>
    have hx : isTerm x = false := h x (List.mem_cons_self x xs)
    simp [readerEvents, hx, ih (fun r hr => h r (List.mem_cons_of_mem _ hr))]

theorem readerEvents_eq_takeWhile (sid : Nat) (l : List ReadResult) :
    readerEvents sid l =
      (l.takeWhile (fun r => !isTerm r)).map
        (fun r => Event.data sid (lossyString (bytesOf r))) := by
  induction l with
  | nil => simp [readerEvents]
  | cons r rest ih =>
    cases hr : isTerm r with
    | true => simp [readerEvents, hr, List.takeWhile_cons]
    | false => simp [readerEvents, hr, List.takeWhile_cons, ih]

theorem dataFor_append (sid : Nat) (es fs : List Event) :
    dataFor sid (es ++ fs) = dataFor sid es ++ dataFor sid fs := by
  simp [dataFor]

theorem exitsFor_append (sid : Nat) (es fs : List Event) :
    exitsFor sid (es ++ fs) = exitsFor sid es ++ exitsFor sid fs := by
  simp [exitsFor]

theorem dataFor_data_self (sid : Nat) (t : String) :
    dataFor sid [Event.data sid t] = [Event.data sid t] := by
  simp [dataFor, isDataFor, List.filter]

theorem dataFor_data_ne {sid sid' : Nat} (h : sid' ≠ sid) (t : String) :
    dataFor sid [Event.data sid' t] = [] := by
  have hb : (sid' == sid) = false := beq_eq_false_iff_ne.mpr h
  simp [dataFor, isDataFor, List.filter, hb]

theorem dataFor_exit (sid sid' c : Nat) : dataFor sid [Event.exit sid' c] = [] := by
  simp [dataFor, isDataFor, List.filter]

theorem exitsFor_exit_self (sid c : Nat) :
    exitsFor sid [Event.exit sid c] = [Event.exit sid c] := by
  simp [exitsFor, isExitFor, List.filter]

theorem exitsFor_exit_ne {sid sid' : Nat} (h : sid' ≠ sid) (c : Nat) :
    exitsFor sid [Event.exit sid' c] = [] := by
  have hb : (sid' == sid) = false := beq_eq_false_iff_ne.mpr h
  simp [exitsFor, isExitFor, List.filter, hb]

theorem exitsFor_data (sid sid' : Nat) (t : String) :
    exitsFor sid [Event.data sid' t] = [] := by
  simp [exitsFor, isExitFor, List.filter]

theorem dataFor_nil_of_not_mem {S : List Nat} {es : List Event}
    (hS : ∀ e ∈ es, e.sid ∈ S) {id : Nat} (hid : id ∉ S) : dataFor id es = [] := by
  refine List.filter_eq_nil_iff.mpr (fun e he => ?_)
  cases e with
  | data s t =>
    simp only [isDataFor, beq_iff_eq]
    intro hEq
    subst hEq
    exact hid (by simpa [Event.sid] using hS _ he)
  | exit s c => simp [isDataFor]

theorem exitsFor_nil_of_not_mem {S : List Nat} {es : List Event}
    (hS : ∀ e ∈ es, e.sid ∈ S) {id : Nat} (hid : id ∉ S) : exitsFor id es = [] := by
  refine List.filter_eq_nil_iff.mpr (fun e he => ?_)
  cases e with
  | data s t => simp [isExitFor]
  | exit s c =>
    simp only [isExitFor, beq_iff_eq]
    intro hEq
    subst hEq
    exact hid (by simpa [Event.sid] using hS _ he)

/-- In a list whose image under `f` has no duplicates, every element other
than the one at the distinguished position has a different image. -/
theorem ne_of_nodup_map {α : Type} (f : α → Nat) {A B : List α} {t u : α}
    (h : ((A ++ t :: B).map f).Nodup) (hu : u ∈ A ++ B) : f u ≠ f t := by
  rw [List.map_append, List.map_cons] at h
  obtain ⟨hA, hc, hdisj⟩ := List.nodup_append.mp h
  rcases List.mem_append.mp hu with hmA | hmB
  · intro hEq
    exact hdisj (List.mem_map_of_mem f hmA) (hEq ▸ List.mem_cons_self _ _)
  · intro hEq
    have : f t ∉ B.map f := (List.nodup_cons.mp hc).1
    exact this (hEq ▸ List.mem_map_of_mem f hmB)

/-! ## The reachability invariant -/

/-- Invariant of every state reachable from `init` by a schedule performing
fewer than `2^32` successful spawns (so the `u32` counter has not wrapped). -/
structure Inv (s : Sys) : Prop where
  spawned_form : s.spawned = (List.range s.spawned.length).map (fun i => (1 + i) % u32Mod)
  nextId_form : s.nextId = (1 + s.spawned.length) % u32Mod
  small : s.spawned.length < u32Mod
  readers_sids : s.readers.map ReaderTask.sid = s.spawned
  waiters_sids : s.waiters.map WaiterTask.sid = s.spawned
  registry_eq : s.registry = (s.waiters.filter WaiterTask.activeB).map WaiterTask.sid
  removed_mem : ∀ id, id ∈ s.removed ↔
    ∃ w ∈ s.waiters, w.sid = id ∧ w.phase = WaiterPhase.done
  removed_nodup : s.removed.Nodup
  events_sids : ∀ e ∈ s.events, e.sid ∈ s.spawned
  reader_inv : ∀ t ∈ s.readers,
    dataFor t.sid s.events = readerEvents t.sid (t.orig.take t.pos)
    ∧ t.pos ≤ t.orig.length
    ∧ (t.alive = true → ∀ r ∈ t.orig.take t.pos, isTerm r = false)
  waiter_inv : ∀ w ∈ s.waiters,
    exitsFor w.sid s.events =
      (if w.phase = WaiterPhase.waiting then []
       else [Event.exit w.sid (w.waitResult.getD 1)])

theorem Inv.spawned_simple {s : Sys} (h : Inv s) :
    s.spawned = (List.range s.spawned.length).map (fun i => 1 + i) := by
  conv_lhs => rw [h.spawned_form]
  refine List.map_congr_left (fun a ha => ?_)
  have h1 : a < s.spawned.length := List.mem_range.mp ha
  have h2 := h.small
  exact Nat.mod_eq_of_lt (by omega)

theorem Inv.spawned_nodup {s : Sys} (h : Inv s) : s.spawned.Nodup := by
  rw [h.spawned_simple]
  exact (List.nodup_range _).map (fun a b hab => by omega)

theorem Inv.fresh {s : Sys} (h : Inv s) (hb : s.spawned.length + 1 < u32Mod) :
    s.nextId ∉ s.spawned := by
  intro hmem
  rw [h.spawned_simple] at hmem
  obtain ⟨a, ha, hEq⟩ := List.mem_map.mp hmem
  have h1 := List.mem_range.mp ha
  rw [h.nextId_form, Nat.mod_eq_of_lt (by omega)] at hEq
  omega

theorem readerEvents_eq_map_of_noTerm {sid : Nat} {xs : List ReadResult}
    (h : ∀ r ∈ xs, isTerm r = false) :
    readerEvents sid xs = xs.map (fun r => Event.data sid (lossyString (bytesOf r))) := by
  simpa [readerEvents] using @readerEvents_append_of_noTerm sid xs h []

theorem inv_stepSpawn {s : Sys} (h : Inv s) (script : List ReadResult) (w : Option Nat)
    (hb : s.spawned.length + 1 < u32Mod) : Inv (stepSpawn s script w) := by
  have hfresh : s.nextId ∉ s.spawned := h.fresh hb
  refine {
    spawned_form := ?_, nextId_form := ?_, small := ?_, readers_sids := ?_,
    waiters_sids := ?_, registry_eq := ?_, removed_mem := ?_, removed_nodup := ?_,
    events_sids := ?_, reader_inv := ?_, waiter_inv := ?_ }
  · show s.spawned ++ [s.nextId] =
      (List.range (s.spawned ++ [s.nextId]).length).map (fun i => (1 + i) % u32Mod)
    rw [List.length_append, List.length_singleton, List.range_succ, List.map_append]
    congr 1
    · exact h.spawned_form
    · simp [h.nextId_form]
  · show (s.nextId + 1) % u32Mod = (1 + (s.spawned ++ [s.nextId]).length) % u32Mod
    rw [List.length_append, List.length_singleton, h.nextId_form, Nat.mod_add_mod]
    congr 1
  · show (s.spawned ++ [s.nextId]).length < u32Mod
    rw [List.length_append, List.length_singleton]
    exact hb
  · show (s.readers ++ [_]).map ReaderTask.sid = s.spawned ++ [s.nextId]
    rw [List.map_append, h.readers_sids]
    rfl
  · show (s.waiters ++ [_]).map WaiterTask.sid = s.spawned ++ [s.nextId]
    rw [List.map_append, h.waiters_sids]
    rfl
  · simp only [stepSpawn, List.filter_append, List.map_append]
    rw [← h.registry_eq]
    rfl
  · intro id
    show id ∈ s.removed ↔ _
    rw [h.removed_mem id]
    constructor
    · rintro ⟨w', hw', hsid, hph⟩
      exact ⟨w', List.mem_append_left _ hw', hsid, hph⟩
    · rintro ⟨w', hw', hsid, hph⟩
      rcases List.mem_append.mp hw' with h1 | h1
      · exact ⟨w', h1, hsid, hph⟩
      · simp at h1
        subst h1
        simp at hph
  · exact h.removed_nodup
  · intro e he
    exact List.mem_append_left _ (h.events_sids e he)
  · intro t ht
    rcases List.mem_append.mp ht with h1 | h1
    · exact h.reader_inv t h1
    · simp at h1
      subst h1
      refine ⟨?_, by simp, by simp⟩
      have hnil : dataFor s.nextId s.events = [] :=
        dataFor_nil_of_not_mem h.events_sids hfresh
      simpa [readerEvents] using hnil
  · intro w' hw'
    rcases List.mem_append.mp hw' with h1 | h1
    · exact h.waiter_inv w' h1
    · simp at h1
      subst h1
      have hnil : exitsFor s.nextId s.events = [] :=
        exitsFor_nil_of_not_mem h.events_sids hfresh
      simpa using hnil

theorem inv_stepReader {s s' : Sys} {i : Nat} (h : Inv s)
    (hstep : stepReader s i = some s') : Inv s' := by
  unfold stepReader at hstep
  split at hstep
  · exact absurd hstep (by simp)
  next t hget =>
    split at hstep
    case isTrue halive =>
      split at hstep
      · exact absurd hstep (by simp)
      next r hr =>
        have hdec : s.readers = s.readers.take i ++ t :: s.readers.drop (i + 1) :=
          get?_decomp hget
        have hmem_t : t ∈ s.readers := List.get?_mem hget
        have hsid_t : t.sid ∈ s.spawned := by
          rw [← h.readers_sids]
          exact List.mem_map_of_mem _ hmem_t
        have hnodup : (s.readers.map ReaderTask.sid).Nodup := by
          rw [h.readers_sids]
          exact h.spawned_nodup
        have hne : ∀ u ∈ s.readers.take i ++ s.readers.drop (i + 1), u.sid ≠ t.sid := by
          intro u hu
          exact ne_of_nodup_map ReaderTask.sid (by rw [← hdec]; exact hnodup) hu
        obtain ⟨hR1, hR2, hR3⟩ := h.reader_inv t hmem_t
        have hr_lt : t.pos < t.orig.length := by
          rw [List.get?_eq_getElem?] at hr
          exact (List.getElem?_eq_some_iff.mp hr).1
        have hr' : t.orig[t.pos]? = some r := by
          rw [← List.get?_eq_getElem?]
          exact hr
        have htake : t.orig.take (t.pos + 1) = t.orig.take t.pos ++ [r] := by
          rw [List.take_succ, hr']
          rfl
        split at hstep
        case isTrue hterm =>
          -- terminating read (`Ok(0)` or `Err`): break, no event
          injection hstep with hstep
          subst hstep
          refine {
            spawned_form := h.spawned_form, nextId_form := h.nextId_form,
            small := h.small, readers_sids := ?_, waiters_sids := h.waiters_sids,
            registry_eq := h.registry_eq, removed_mem := h.removed_mem,
            removed_nodup := h.removed_nodup, events_sids := h.events_sids,
            reader_inv := ?_, waiter_inv := h.waiter_inv }
          · show (s.readers.set i _).map ReaderTask.sid = s.spawned
            rw [set_decomp hget _, ← h.readers_sids]
            conv_rhs => rw [hdec]
            simp [List.map_append]
          · intro u hu
            rw [set_decomp hget _] at hu
            rcases List.mem_append.mp hu with hA | hcons
            · exact h.reader_inv u (by rw [hdec]; exact List.mem_append_left _ hA)
            · rcases List.mem_cons.mp hcons with rfl | hB
              · refine ⟨?_, by show t.pos + 1 ≤ t.orig.length; omega, ?_⟩
                · show dataFor t.sid s.events = readerEvents t.sid (t.orig.take (t.pos + 1))
                  rw [hR1, htake, readerEvents_append_of_noTerm (hR3 halive)]
                  rw [readerEvents_eq_map_of_noTerm (hR3 halive)]
                  simp [readerEvents, hterm]
                · intro habs
                  simp at habs
              · exact h.reader_inv u
                  (by rw [hdec]; exact List.mem_append_right _ (List.mem_cons_of_mem _ hB))
        case isFalse hterm =>
          -- non-empty read: emit one `data` event
          injection hstep with hstep
          subst hstep
          have hterm' : isTerm r = false := by
            cases hx : isTerm r
            · rfl
            · exact absurd hx hterm
          refine {
            spawned_form := h.spawned_form, nextId_form := h.nextId_form,
            small := h.small, readers_sids := ?_, waiters_sids := h.waiters_sids,
            registry_eq := h.registry_eq, removed_mem := h.removed_mem,
            removed_nodup := h.removed_nodup, events_sids := ?_,
            reader_inv := ?_, waiter_inv := ?_ }
          · show (s.readers.set i _).map ReaderTask.sid = s.spawned
            rw [set_decomp hget _, ← h.readers_sids]
            conv_rhs => rw [hdec]
            simp [List.map_append]
          · intro e he
            rcases List.mem_append.mp he with h1 | h1
            · exact h.events_sids e h1
            · simp at h1
              subst h1
              exact hsid_t
          · intro u hu
            rw [set_decomp hget _] at hu
            rcases List.mem_append.mp hu with hA | hcons
            · have huo : u ∈ s.readers := by
                rw [hdec]
                exact List.mem_append_left _ hA
              have hneq : u.sid ≠ t.sid := hne u (List.mem_append_left _ hA)
              obtain ⟨a1, a2, a3⟩ := h.reader_inv u huo
              exact ⟨by rw [dataFor_append, dataFor_data_ne (Ne.symm hneq), List.append_nil, a1],
                a2, a3⟩
            · rcases List.mem_cons.mp hcons with rfl | hB
              · refine ⟨?_, by show t.pos + 1 ≤ t.orig.length; omega, ?_⟩
                · show dataFor t.sid (s.events ++ [Event.data t.sid (lossyString (bytesOf r))]) =
                    readerEvents t.sid (t.orig.take (t.pos + 1))
                  rw [dataFor_append, dataFor_data_self, hR1, htake]
                  rw [readerEvents_append_of_noTerm (hR3 halive)]
                  rw [readerEvents_eq_map_of_noTerm (hR3 halive)]
                  simp [readerEvents, hterm']
                · intro _ r' hr'mem
                  rw [htake] at hr'mem
                  rcases List.mem_append.mp hr'mem with h1 | h1
                  · exact hR3 halive r' h1
                  · simp at h1
                    subst h1
                    exact hterm'
              · have huo : u ∈ s.readers := by
                  rw [hdec]
                  exact List.mem_append_right _ (List.mem_cons_of_mem _ hB)
                have hneq : u.sid ≠ t.sid := hne u (List.mem_append_right _ hB)
                obtain ⟨a1, a2, a3⟩ := h.reader_inv u huo
                exact ⟨by rw [dataFor_append, dataFor_data_ne (Ne.symm hneq), List.append_nil, a1],
                  a2, a3⟩
          · intro w' hw'
            have hwi := h.waiter_inv w' hw'
            rw [exitsFor_append, exitsFor_data, List.append_nil]
            exact hwi
    case isFalse halive => exact absurd hstep (by simp)

theorem inv_stepWaiterEmit {s s' : Sys} {i : Nat} (h : Inv s)
    (hstep : stepWaiterEmit s i = some s') : Inv s' := by
  unfold stepWaiterEmit at hstep
  split at hstep
  · exact absurd hstep (by simp)
  next w hget =>
    split at hstep
    case h_1 hph =>
      injection hstep with hstep
      subst hstep
      have hdec : s.waiters = s.waiters.take i ++ w :: s.waiters.drop (i + 1) :=
        get?_decomp hget
      have hmem_w : w ∈ s.waiters := List.get?_mem hget
      have hsid_w : w.sid ∈ s.spawned := by
        rw [← h.waiters_sids]
        exact List.mem_map_of_mem _ hmem_w
      have hnodup : (s.waiters.map WaiterTask.sid).Nodup := by
        rw [h.waiters_sids]
        exact h.spawned_nodup
      have hne : ∀ u ∈ s.waiters.take i ++ s.waiters.drop (i + 1), u.sid ≠ w.sid := by
        intro u hu
        exact ne_of_nodup_map WaiterTask.sid (by rw [← hdec]; exact hnodup) hu
      have hWI := h.waiter_inv w hmem_w
      have hWInil : exitsFor w.sid s.events = [] := by
        rw [hWI, hph]
        simp
      have hw_active : WaiterTask.activeB w = true := by
        simp [WaiterTask.activeB, hph]
      refine {
        spawned_form := h.spawned_form, nextId_form := h.nextId_form,
        small := h.small, readers_sids := h.readers_sids, waiters_sids := ?_,
        registry_eq := ?_, removed_mem := ?_, removed_nodup := h.removed_nodup,
        events_sids := ?_, reader_inv := ?_, waiter_inv := ?_ }
      · show (s.waiters.set i _).map WaiterTask.sid = s.spawned
        rw [set_decomp hget _, ← h.waiters_sids]
        conv_rhs => rw [hdec]
        simp [List.map_append]
      · have hw2 : WaiterTask.activeB ⟨w.sid, w.waitResult, WaiterPhase.emitted⟩ = true := rfl
        show s.registry = ((s.waiters.set i _).filter WaiterTask.activeB).map WaiterTask.sid
        rw [set_decomp hget _, h.registry_eq]
        conv_lhs => rw [hdec]
        rw [List.filter_append, List.filter_cons_of_pos hw_active,
          List.filter_append, List.filter_cons_of_pos hw2]
        simp [List.map_append]
      · intro id
        show id ∈ s.removed ↔ _
        rw [h.removed_mem id]
        constructor
        · rintro ⟨u, hu, hsid, hphu⟩
          rw [hdec] at hu
          rcases List.mem_append.mp hu with hA | hcons
          · exact ⟨u, by rw [set_decomp hget _]; exact List.mem_append_left _ hA, hsid, hphu⟩
          · rcases List.mem_cons.mp hcons with rfl | hB
            · rw [hph] at hphu
              simp at hphu
            · exact ⟨u, by
                rw [set_decomp hget _]
                exact List.mem_append_right _ (List.mem_cons_of_mem _ hB), hsid, hphu⟩
        · rintro ⟨u, hu, hsid, hphu⟩
          rw [set_decomp hget _] at hu
          rcases List.mem_append.mp hu with hA | hcons
          · exact ⟨u, by rw [hdec]; exact List.mem_append_left _ hA, hsid, hphu⟩
          · rcases List.mem_cons.mp hcons with rfl | hB
            · simp at hphu
            · exact ⟨u, by
                rw [hdec]
                exact List.mem_append_right _ (List.mem_cons_of_mem _ hB), hsid, hphu⟩
      · intro e he
        rcases List.mem_append.mp he with h1 | h1
        · exact h.events_sids e h1
        · simp at h1
          subst h1
          exact hsid_w
      · intro t ht
        obtain ⟨a1, a2, a3⟩ := h.reader_inv t ht
        exact ⟨by rw [dataFor_append, dataFor_exit, List.append_nil, a1], a2, a3⟩
      · intro u hu
        rw [set_decomp hget _] at hu
        rcases List.mem_append.mp hu with hA | hcons
        · have huo : u ∈ s.waiters := by
            rw [hdec]
            exact List.mem_append_left _ hA
          have hneq : u.sid ≠ w.sid := hne u (List.mem_append_left _ hA)
          have hwi := h.waiter_inv u huo
          rw [exitsFor_append, exitsFor_exit_ne (Ne.symm hneq), List.append_nil]
          exact hwi
        · rcases List.mem_cons.mp hcons with rfl | hB
          · show exitsFor w.sid (s.events ++ [Event.exit w.sid (w.waitResult.getD 1)]) = _
            rw [exitsFor_append, hWInil, exitsFor_exit_self, List.nil_append]
            simp
          · have huo : u ∈ s.waiters := by
              rw [hdec]
              exact List.mem_append_right _ (List.mem_cons_of_mem _ hB)
            have hneq : u.sid ≠ w.sid := hne u (List.mem_append_right _ hB)
            have hwi := h.waiter_inv u huo
            rw [exitsFor_append, exitsFor_exit_ne (Ne.symm hneq), List.append_nil]
            exact hwi
    case h_2 =>
      exact absurd hstep (by simp)

theorem inv_stepWaiterRemove {s s' : Sys} {i : Nat} (h : Inv s)
    (hstep : stepWaiterRemove s i = some s') : Inv s' := by
  unfold stepWaiterRemove at hstep
  split at hstep
  · exact absurd hstep (by simp)
  next w hget =>
    split at hstep
    case h_1 hph =>
      injection hstep with hstep
      subst hstep
      have hdec : s.waiters = s.waiters.take i ++ w :: s.waiters.drop (i + 1) :=
        get?_decomp hget
      have hmem_w : w ∈ s.waiters := List.get?_mem hget
      have hsid_w : w.sid ∈ s.spawned := by
        rw [← h.waiters_sids]
        exact List.mem_map_of_mem _ hmem_w
      have hnodup : (s.waiters.map WaiterTask.sid).Nodup := by
        rw [h.waiters_sids]
        exact h.spawned_nodup
      have hne : ∀ u ∈ s.waiters.take i ++ s.waiters.drop (i + 1), u.sid ≠ w.sid := by
        intro u hu
        exact ne_of_nodup_map WaiterTask.sid (by rw [← hdec]; exact hnodup) hu
      have hWI := h.waiter_inv w hmem_w
      have hWIval : exitsFor w.sid s.events = [Event.exit w.sid (w.waitResult.getD 1)] := by
        rw [hWI, hph]
        simp
      have hw_active : WaiterTask.activeB w = true := by
        simp [WaiterTask.activeB, hph]
      have hnotrem : w.sid ∉ s.removed := by
        intro hmem
        obtain ⟨u, hu, hsid, hphu⟩ := (h.removed_mem _).mp hmem
        rw [hdec] at hu
        rcases List.mem_append.mp hu with hA | hcons
        · exact (hne u (List.mem_append_left _ hA)) hsid
        · rcases List.mem_cons.mp hcons with rfl | hB
          · rw [hph] at hphu
            simp at hphu
          · exact (hne u (List.mem_append_right _ hB)) hsid
      have hsubA : w.sid ∉
          ((s.waiters.take i).filter WaiterTask.activeB).map WaiterTask.sid := by
        intro hmem
        obtain ⟨u, hu, hsid⟩ := List.mem_map.mp hmem
        exact (hne u (List.mem_append_left _ (List.mem_of_mem_filter hu))) hsid
      refine {
        spawned_form := h.spawned_form, nextId_form := h.nextId_form,
        small := h.small, readers_sids := h.readers_sids, waiters_sids := ?_,
        registry_eq := ?_, removed_mem := ?_, removed_nodup := ?_,
        events_sids := h.events_sids, reader_inv := h.reader_inv, waiter_inv := ?_ }
      · show (s.waiters.set i _).map WaiterTask.sid = s.spawned
        rw [set_decomp hget _, ← h.waiters_sids]
        conv_rhs => rw [hdec]
        simp [List.map_append]
      · show s.registry.erase w.sid =
          ((s.waiters.set i _).filter WaiterTask.activeB).map WaiterTask.sid
        rw [set_decomp hget _, h.registry_eq]
        conv_lhs => rw [hdec]
        have hw2 : ¬ (WaiterTask.activeB ⟨w.sid, w.waitResult, WaiterPhase.done⟩ = true) := by
          simp [WaiterTask.activeB]
        rw [List.filter_append, List.filter_cons_of_pos hw_active,
          List.map_append, List.map_cons,
          List.erase_append_right _ hsubA, List.erase_cons_head,
          List.filter_append, List.filter_cons_of_neg hw2, List.map_append]
      · intro id
        show id ∈ s.removed ++ [w.sid] ↔ _
        constructor
        · intro hid
          rcases List.mem_append.mp hid with h1 | h1
          · obtain ⟨u, hu, hsid, hphu⟩ := (h.removed_mem id).mp h1
            rw [hdec] at hu
            rcases List.mem_append.mp hu with hA | hcons
            · exact ⟨u, by rw [set_decomp hget _]; exact List.mem_append_left _ hA,
                hsid, hphu⟩
            · rcases List.mem_cons.mp hcons with rfl | hB
              · rw [hph] at hphu
                simp at hphu
              · exact ⟨u, by
                  rw [set_decomp hget _]
                  exact List.mem_append_right _ (List.mem_cons_of_mem _ hB), hsid, hphu⟩
          · simp at h1
            subst h1
            refine ⟨⟨w.sid, w.waitResult, WaiterPhase.done⟩, ?_, rfl, rfl⟩
            rw [set_decomp hget _]
            exact List.mem_append_right _ (List.mem_cons_self _ _)
        · rintro ⟨u, hu, hsid, hphu⟩
          rw [set_decomp hget _] at hu
          rcases List.mem_append.mp hu with hA | hcons
          · have huo : u ∈ s.waiters := by
              rw [hdec]
              exact List.mem_append_left _ hA
            exact List.mem_append_left _ ((h.removed_mem id).mpr ⟨u, huo, hsid, hphu⟩)
          · rcases List.mem_cons.mp hcons with rfl | hB
            · exact List.mem_append_right _ (by simp [← hsid])
            · have huo : u ∈ s.waiters := by
                rw [hdec]
                exact List.mem_append_right _ (List.mem_cons_of_mem _ hB)
              exact List.mem_append_left _ ((h.removed_mem id).mpr ⟨u, huo, hsid, hphu⟩)
      · show (s.removed ++ [w.sid]).Nodup
        rw [List.nodup_append]
        refine ⟨h.removed_nodup, List.nodup_singleton _, ?_⟩
        intro a ha hb
        simp at hb
        subst hb
        exact hnotrem ha
      · intro u hu
        rw [set_decomp hget _] at hu
        rcases List.mem_append.mp hu with hA | hcons
        · exact h.waiter_inv u (by rw [hdec]; exact List.mem_append_left _ hA)
        · rcases List.mem_cons.mp hcons with rfl | hB
          · show exitsFor w.sid s.events = _
            rw [hWIval]
            simp
          · exact h.waiter_inv u
              (by rw [hdec]; exact List.mem_append_right _ (List.mem_cons_of_mem _ hB))
    case h_2 =>
      exact absurd hstep (by simp)

/-- The reader step never touches the registry, the counter, the waiters or
the removal history. -/
theorem stepReader_frame {s s' : Sys} {i : Nat} (h : stepReader s i = some s') :
    s'.registry = s.registry ∧ s'.waiters = s.waiters ∧ s'.nextId = s.nextId ∧
      s'.spawned = s.spawned ∧ s'.removed = s.removed := by
  unfold stepReader at h
  split at h
  · exact absurd h (by simp)
  next t hget =>
    split at h
    case isTrue =>
      split at h
      · exact absurd h (by simp)
      next r hr =>
        split at h <;> (injection h with h; subst h; exact ⟨rfl, rfl, rfl, rfl, rfl⟩)
    case isFalse => exact absurd h (by simp)

/-- The exit-waiter's emit step touches only the event list and its own phase. -/
theorem stepWaiterEmit_frame {s s' : Sys} {i : Nat} (h : stepWaiterEmit s i = some s') :
    s'.registry = s.registry ∧ s'.readers = s.readers ∧ s'.nextId = s.nextId ∧
      s'.spawned = s.spawned ∧ s'.removed = s.removed := by
  unfold stepWaiterEmit at h
  split at h
  · exact absurd h (by simp)
  next w hget =>
    split at h
    case h_1 hph =>
      injection h with h
      subst h
      exact ⟨rfl, rfl, rfl, rfl, rfl⟩
    case h_2 => exact absurd h (by simp)

/-- The removal step fires only for a waiter that has already completed its
wait and emitted the exit event (phase `emitted`); it erases exactly that
waiter's session id and records the removal. -/
theorem stepWaiterRemove_shape {s s' : Sys} {i : Nat}
    (h : stepWaiterRemove s i = some s') :
    ∃ w, s.waiters.get? i = some w ∧ w.phase = WaiterPhase.emitted ∧
      s'.registry = s.registry.erase w.sid ∧ s'.removed = s.removed ++ [w.sid] ∧
      s'.events = s.events ∧ s'.readers = s.readers ∧ s'.spawned = s.spawned := by
  unfold stepWaiterRemove at h
  split at h
  · exact absurd h (by simp)
  next w hget =>
    split at h
    case h_1 hph =>
      injection h with h
      subst h
      exact ⟨w, hget, hph, rfl, rfl, rfl, rfl, rfl⟩
    case h_2 => exact absurd h (by simp)

theorem inv_init : Inv init := by
  refine {
    spawned_form := rfl, nextId_form := by decide, small := by decide,
    readers_sids := rfl, waiters_sids := rfl, registry_eq := rfl,
    removed_mem := ?_, removed_nodup := List.nodup_nil,
    events_sids := ?_, reader_inv := ?_, waiter_inv := ?_ }
  · intro id
    simp [init]
  · intro e he
    simp [init] at he
  · intro t ht
    simp [init] at ht
  · intro w hw
    simp [init] at hw

theorem run_inv : ∀ (ls : List Label) (s s' : Sys), run s ls = some s' → Inv s →
    s.spawned.length + countSpawns ls < u32Mod → Inv s'
  | [], s, s', hrun, hinv, _ => by
    simp only [run, Option.some.injEq] at hrun
    exact hrun ▸ hinv
  | l :: ls, s, s', hrun, hinv, hb => by
    simp only [run] at hrun
    cases hstep : step s l with
    | none =>
      rw [hstep] at hrun
      exact absurd hrun (by simp)
    | some s1 =>
      rw [hstep] at hrun
      cases l with
      | spawnOk script w =>
        have hc : countSpawns (Label.spawnOk script w :: ls) = countSpawns ls + 1 := by
          simp [countSpawns, List.filter]
        rw [hc] at hb
        simp only [step] at hstep
        injection hstep with hstep
        subst hstep
        have hlen : (stepSpawn s script w).spawned.length = s.spawned.length + 1 := by
          simp [stepSpawn]
        exact run_inv ls _ s' hrun (inv_stepSpawn hinv script w (by omega))
          (by rw [hlen]; omega)
      | spawnFail =>
        have hc : countSpawns (Label.spawnFail :: ls) = countSpawns ls := by
          simp [countSpawns, List.filter]
        rw [hc] at hb
        simp only [step] at hstep
        injection hstep with hstep
        subst hstep
        exact run_inv ls _ s' hrun hinv hb
      | readerRead i =>
        have hc : countSpawns (Label.readerRead i :: ls) = countSpawns ls := by
          simp [countSpawns, List.filter]
        rw [hc] at hb
        simp only [step] at hstep
        have hfr := stepReader_frame hstep
        exact run_inv ls s1 s' hrun (inv_stepReader hinv hstep)
          (by rw [hfr.2.2.2.1]; omega)
      | waiterEmit i =>
        have hc : countSpawns (Label.waiterEmit i :: ls) = countSpawns ls := by
          simp [countSpawns, List.filter]
        rw [hc] at hb
        simp only [step] at hstep
        have hfr := stepWaiterEmit_frame hstep
        exact run_inv ls s1 s' hrun (inv_stepWaiterEmit hinv hstep)
          (by rw [hfr.2.2.2.1]; omega)
      | waiterRemove i =>
        have hc : countSpawns (Label.waiterRemove i :: ls) = countSpawns ls := by
          simp [countSpawns, List.filter]
        rw [hc] at hb
        simp only [step] at hstep
        obtain ⟨w, _, _, _, _, _, _, hsp⟩ := stepWaiterRemove_shape hstep
        exact run_inv ls s1 s' hrun (inv_stepWaiterRemove hinv hstep)
          (by rw [hsp]; omega)
      | cmdWrite sid =>
        have hc : countSpawns (Label.cmdWrite sid :: ls) = countSpawns ls := by
          simp [countSpawns, List.filter]
        rw [hc] at hb
        simp only [step] at hstep
        injection hstep with hstep
        subst hstep
        exact run_inv ls _ s' hrun hinv hb
      | cmdResize sid =>
        have hc : countSpawns (Label.cmdResize sid :: ls) = countSpawns ls := by
          simp [countSpawns, List.filter]
        rw [hc] at hb
        simp only [step] at hstep
        injection hstep with hstep
        subst hstep
        exact run_inv ls _ s' hrun hinv hb
      | cmdKill sid =>
        have hc : countSpawns (Label.cmdKill sid :: ls) = countSpawns ls := by
          simp [countSpawns, List.filter]
        rw [hc] at hb
        simp only [step] at hstep
        injection hstep with hstep
        subst hstep
        exact run_inv ls _ s' hrun hinv hb

/-- Every state reachable from `init` by a schedule with fewer than `2^32`
successful spawns satisfies the invariant. -/
theorem reachable_inv {ls : List Label} {s : Sys} (h : run init ls = some s)
    (hb : countSpawns ls < u32Mod) : Inv s :=
  run_inv ls init s h inv_init (by simpa [init] using hb)

/-- The number of ids handed out equals the number of successful spawns. -/
theorem run_spawned_count : ∀ (ls : List Label) (s s' : Sys), run s ls = some s' →
    s'.spawned.length = s.spawned.length + countSpawns ls
  | [], s, s', hrun => by
    simp only [run, Option.some.injEq] at hrun
    subst hrun
    simp [countSpawns]
  | l :: ls, s, s', hrun => by
    simp only [run] at hrun
    cases hstep : step s l with
    | none =>
      rw [hstep] at hrun
      exact absurd hrun (by simp)
    | some s1 =>
      rw [hstep] at hrun
      have ih := run_spawned_count ls s1 s' hrun
      cases l with
      | spawnOk script w =>
        simp only [step] at hstep
        injection hstep with hstep
        subst hstep
        rw [ih]
        simp [stepSpawn, countSpawns, List.filter]
        omega
      | spawnFail =>
        simp only [step] at hstep
        injection hstep with hstep
        subst hstep
        rw [ih]
        simp [countSpawns, List.filter]
      | readerRead i =>
        simp only [step] at hstep
        rw [ih, (stepReader_frame hstep).2.2.2.1]
        simp [countSpawns, List.filter]
      | waiterEmit i =>
        simp only [step] at hstep
        rw [ih, (stepWaiterEmit_frame hstep).2.2.2.1]
        simp [countSpawns, List.filter]
      | waiterRemove i =>
        simp only [step] at hstep
        obtain ⟨w, _, _, _, _, _, _, hsp⟩ := stepWaiterRemove_shape hstep
        rw [ih, hsp]
        simp [countSpawns, List.filter]
      | cmdWrite sid =>
        simp only [step] at hstep
        injection hstep with hstep
        subst hstep
        rw [ih]
        simp [countSpawns, List.filter]
      | cmdResize sid =>
        simp only [step] at hstep
        injection hstep with hstep
        subst hstep
        rw [ih]
        simp [countSpawns, List.filter]
      | cmdKill sid =>
        simp only [step] at hstep
        injection hstep with hstep
        subst hstep
        rw [ih]
        simp [countSpawns, List.filter]

/-- Closed form of a schedule that only spawns, `n` times in a row.  The
`fetch_add` counter wraps modulo `2^32`, so the handed-out ids are
`nextId, nextId + 1, …` reduced mod `2^32`. -/
theorem run_replicate_spawn : ∀ (n : Nat) (s : Sys), s.nextId < u32Mod →
    ∃ s', run s (List.replicate n (Label.spawnOk [] none)) = some s' ∧
      s'.spawned = s.spawned ++ (List.range n).map (fun i => (s.nextId + i) % u32Mod) ∧
      s'.nextId = (s.nextId + n) % u32Mod
  | 0, s, h =>
    ⟨s, by simp [run], by simp, by rw [Nat.add_zero, Nat.mod_eq_of_lt h]⟩
  | n + 1, s, h => by
    obtain ⟨s', hrun, hsp, hnext⟩ := run_replicate_spawn n (stepSpawn s [] none)
      (by simp only [stepSpawn]; exact Nat.mod_lt _ (by decide))
    refine ⟨s', ?_, ?_, ?_⟩
    · rw [List.replicate_succ]
      simp only [run, step]
      exact hrun
    · rw [hsp]
      simp only [stepSpawn]
      rw [List.append_assoc]
      congr 1
      rw [List.singleton_append, List.range_succ_eq_map, List.map_cons, List.map_map]
      congr 1
      · show s.nextId = (s.nextId + 0) % u32Mod
        rw [Nat.add_zero, Nat.mod_eq_of_lt h]
      · refine List.map_congr_left (fun a ha => ?_)
        show ((s.nextId + 1) % u32Mod + a) % u32Mod =
          ((fun i => (s.nextId + i) % u32Mod) ∘ Nat.succ) a
        simp only [Function.comp_apply]
        rw [Nat.mod_add_mod]
        congr 1
        omega
    · rw [hnext]
      simp only [stepSpawn, Nat.mod_add_mod]
      congr 1
      omega

/-- `write_all` succeeds exactly when the whole buffer was appended to the
sink, verbatim and in order. -/
theorem writeAll_ok : ∀ (outs : List WOut) (sink buf sink' : List Nat),
    writeAll outs sink buf = some (sink', .ok ()) → sink' = sink ++ buf := by
  intro outs
  induction outs with
  | nil =>
    intro sink buf sink' h
    cases buf with
    | nil =>
      simp [writeAll] at h
      simp [h]
    | cons b bs => simp [writeAll] at h
  | cons o outs ih =>
    intro sink buf sink' h
    cases buf with
    | nil =>
      simp [writeAll] at h
      simp [h]
    | cons b bs =>
      cases o with
      | accept n =>
        simp only [writeAll] at h
        by_cases hn : n = 0
        · rw [if_pos hn] at h
          simp at h
        · rw [if_neg hn] at h
          have hs := ih _ _ _ h
          rw [hs, List.append_assoc, List.take_append_drop]
      | fail e => simp [writeAll] at h

/-- `write_all` fails only with a strict prefix of the buffer delivered. -/
theorem writeAll_err : ∀ (outs : List WOut) (sink buf sink' : List Nat) (e : String),
    writeAll outs sink buf = some (sink', .error e) →
      ∃ p, p <+: buf ∧ p.length < buf.length ∧ sink' = sink ++ p := by
  intro outs
  induction outs with
  | nil =>
    intro sink buf sink' e h
    cases buf with
    | nil => simp [writeAll] at h
    | cons b bs => simp [writeAll] at h
  | cons o outs ih =>
    intro sink buf sink' e h
    cases buf with
    | nil => simp [writeAll] at h
    | cons b bs =>
      cases o with
      | accept n =>
        simp only [writeAll] at h
        by_cases hn : n = 0
        · rw [if_pos hn] at h
          simp at h
          exact ⟨[], ⟨b :: bs, by simp⟩, by simp, by simp [h.1]⟩
        · rw [if_neg hn] at h
          obtain ⟨p, hpre, hlen, hsink⟩ := ih _ _ _ _ h
          obtain ⟨t, ht⟩ := hpre
          refine ⟨(b :: bs).take n ++ p, ⟨t, ?_⟩, ?_, ?_⟩
          · rw [List.append_assoc, ht, List.take_append_drop]
          · rw [List.length_append, List.length_take]
            rw [List.length_drop] at hlen
            omega
          · rw [hsink, List.append_assoc]
      | fail e2 =>
        simp [writeAll] at h
        exact ⟨[], ⟨b :: bs, by simp⟩, by simp, by simp [h.1]⟩

/-- Updating the session stored under a present key makes lookup return the
new value. -/
theorem lookupA_updateA {id : Nat} {v w : Session} : ∀ {l : List (Nat × Session)},
    lookupA id l = some w → lookupA id (updateA id v l) = some v := by
  intro l
  induction l with
  | nil => intro h; simp [lookupA] at h
  | cons kv rest ih =>
    obtain ⟨k, u⟩ := kv
    intro h
    by_cases hk : k = id
    · subst hk
      simp [lookupA, updateA]
    · simp only [lookupA, updateA, if_neg hk] at h ⊢
      exact ih h

/-! ## Claims -/

/-- Schedule witnessing that the exit event need not be last: the child emits
two chunks and exits; the waiter observes the exit (and emits) while the
reader still holds the second chunk. -/
def c1cexLabels : List Label :=
  [Label.spawnOk [ReadResult.ok [97], ReadResult.ok [98], ReadResult.ok []] (some 0),
   Label.readerRead 0, Label.waiterEmit 0, Label.readerRead 0]

/-- The state reached by `c1cexLabels`. -/
def c1cexSys : Sys :=
  ⟨2, [1], [⟨1, [ReadResult.ok [97], ReadResult.ok [98], ReadResult.ok []], 2, true⟩],
   [⟨1, some 0, WaiterPhase.emitted⟩],
   [Event.data 1 "a", Event.exit 1 0, Event.data 1 "b"], [1], []⟩

/-- C1, counterexample.  The claim says the `exit` event is the last event
ever emitted for a session.  The reader and exit-waiter threads share no
synchronization: `child.wait()` returns when the process dies even though the
reader still holds buffered output, so a reachable schedule emits
`data "a"`, `exit 0`, `data "b"` for the same session — a `data` event
strictly after the session's `exit` event. -/
theorem C1_exit_not_last_counterexample :
    run init c1cexLabels = some c1cexSys ∧
      c1cexSys.events = [Event.data 1 "a", Event.exit 1 0, Event.data 1 "b"] ∧
      ¬ (∀ i j c txt, c1cexSys.events.get? i = some (Event.exit 1 c) →
          c1cexSys.events.get? j = some (Event.data 1 txt) → j < i) := by
  refine ⟨by decide, rfl, fun hno => ?_⟩
  have h1 := hno 1 2 0 "b" (by decide) (by decide)
  omega

/-- C1 (amended): within one session, `data` events preserve the order in
which bytes were read from the PTY device — at every reachable state the
`data` events of a session are exactly the lossy decodings of the non-empty
reads of the consumed prefix of its read sequence, in read order — and at
most one `exit` event is ever emitted per session.  (The original claim's
"no `data` event after the `exit` event" is refuted by
`C1_exit_not_last_counterexample`: the two threads are unsynchronized.) -/
theorem C1_data_order_and_exit_unique :
    ∀ (ls : List Label) (s : Sys), run init ls = some s → countSpawns ls < u32Mod →
      (∀ t ∈ s.readers,
        dataFor t.sid s.events =
          ((t.orig.take t.pos).takeWhile (fun r => !isTerm r)).map
            (fun r => Event.data t.sid (lossyString (bytesOf r))))
      ∧ (∀ w ∈ s.waiters, (exitsFor w.sid s.events).length ≤ 1) := by
  intro ls s hrun hb
  have hinv := reachable_inv hrun hb
  constructor
  · intro t ht
    rw [(hinv.reader_inv t ht).1, readerEvents_eq_takeWhile]
  · intro w hw
    rw [hinv.waiter_inv w hw]
    split <;> simp

/-- Schedule for the C1 witness: one chunk read, then the exit observed. -/
def c1wLabels : List Label :=
  [Label.spawnOk [ReadResult.ok [104]] (some 0), Label.readerRead 0, Label.waiterEmit 0]

/-- The state reached by `c1wLabels`. -/
def c1wSys : Sys :=
  ⟨2, [1], [⟨1, [ReadResult.ok [104]], 1, true⟩], [⟨1, some 0, WaiterPhase.emitted⟩],
   [Event.data 1 "h", Event.exit 1 0], [1], []⟩

/-- C1 witness: the amended theorem applied to the concrete schedule
`c1wLabels` and its reachable state. -/
theorem C1_witness :
    dataFor 1 c1wSys.events =
      ((([ReadResult.ok [104]] : List ReadResult).take 1).takeWhile (fun r => !isTerm r)).map
        (fun r => Event.data 1 (lossyString (bytesOf r)))
    ∧ (exitsFor 1 c1wSys.events).length ≤ 1 := by
  have h := C1_data_order_and_exit_unique c1wLabels c1wSys (by decide) (by decide)
  exact ⟨h.1 ⟨1, [ReadResult.ok [104]], 1, true⟩ (by decide),
    h.2 ⟨1, some 0, WaiterPhase.emitted⟩ (by decide)⟩

/-- C2: registry removal discipline.  The `pty_write`/`pty_resize`/`pty_kill`
handlers leave the whole process state — in particular the registry mapping
for every id — untouched; the reader step never changes the registry or the
removal history; a removal step fires only for an exit-waiter whose wait has
completed (phase `emitted`, i.e. after `child.wait()` returned and the exit
event was emitted) and removes exactly that waiter's id; and along every
reachable schedule each id is removed at most once (`removed.Nodup`), an id
is in the removal history exactly when its exit-waiter has finished, and the
registry holds exactly the ids whose exit-waiter has not yet removed them. -/
theorem C2_single_removal :
    (∀ (s : Sys) (sid : String),
      step s (Label.cmdWrite sid) = some s ∧ step s (Label.cmdResize sid) = some s ∧
        step s (Label.cmdKill sid) = some s)
    ∧ (∀ (s s' : Sys) (i : Nat), step s (Label.readerRead i) = some s' →
        s'.registry = s.registry ∧ s'.removed = s.removed)
    ∧ (∀ (s s' : Sys) (i : Nat), step s (Label.waiterEmit i) = some s' →
        s'.registry = s.registry ∧ s'.removed = s.removed)
    ∧ (∀ (s s' : Sys) (i : Nat), step s (Label.waiterRemove i) = some s' →
        ∃ w, s.waiters.get? i = some w ∧ w.phase = WaiterPhase.emitted ∧
          s'.registry = s.registry.erase w.sid ∧ s'.removed = s.removed ++ [w.sid])
    ∧ (∀ (ls : List Label) (s : Sys), run init ls = some s → countSpawns ls < u32Mod →
        s.removed.Nodup
        ∧ (∀ id, id ∈ s.removed ↔ ∃ w ∈ s.waiters, w.sid = id ∧ w.phase = WaiterPhase.done)
        ∧ s.registry = (s.waiters.filter WaiterTask.activeB).map WaiterTask.sid) := by
  refine ⟨fun s sid => ⟨rfl, rfl, rfl⟩, ?_, ?_, ?_, ?_⟩
  · intro s s' i hstep
    have hfr := stepReader_frame hstep
    exact ⟨hfr.1, hfr.2.2.2.2⟩
  · intro s s' i hstep
    have hfr := stepWaiterEmit_frame hstep
    exact ⟨hfr.1, hfr.2.2.2.2⟩
  · intro s s' i hstep
    obtain ⟨w, h1, h2, h3, h4, _, _, _⟩ := stepWaiterRemove_shape hstep
    exact ⟨w, h1, h2, h3, h4⟩
  · intro ls s hrun hb
    have hinv := reachable_inv hrun hb
    exact ⟨hinv.removed_nodup, hinv.removed_mem, hinv.registry_eq⟩

/-- Schedule for the C2 witness: spawn, wait completes, removal. -/
def c2wLabels : List Label :=
  [Label.spawnOk [] none, Label.waiterEmit 0, Label.waiterRemove 0]

/-- The state reached by `c2wLabels`: session 1 removed exactly once. -/
def c2wSys : Sys :=
  ⟨2, [], [⟨1, [], 0, true⟩], [⟨1, none, WaiterPhase.done⟩], [Event.exit 1 1], [1], [1]⟩

/-- C2 witness: the reachable-state conjunct applied to `c2wLabels`. -/
theorem C2_witness :
    c2wSys.removed.Nodup ∧
      c2wSys.registry = (c2wSys.waiters.filter WaiterTask.activeB).map WaiterTask.sid := by
  have h := C2_single_removal.2.2.2.2 c2wLabels c2wSys (by decide) (by decide)
  exact ⟨h.1, h.2.2⟩

/-- C3, counterexample.  The session counter is an `AtomicU32` and
`fetch_add` wraps: a schedule of `2^32 + 1` successful spawns hands out ids
`1, 2, …, 2^32 - 1, 0, 1`, which are neither strictly increasing nor unique
(id 1 is returned twice), refuting "unique … strictly increasing … never
reused" for *every* sequence of spawns. -/
theorem C3_wraparound_counterexample :
    ∃ s, run init (List.replicate (u32Mod + 1) (Label.spawnOk [] none)) = some s ∧
      ¬ s.spawned.Pairwise (· < ·) ∧ ¬ s.spawned.Nodup := by
  obtain ⟨s, hrun, hsp, _⟩ := run_replicate_spawn (u32Mod + 1) init (by decide)
  have hfun : (fun i => (init.nextId + i) % u32Mod) = (fun i => (1 + i) % u32Mod) := rfl
  have hsp2 : s.spawned = (List.range (u32Mod + 1)).map (fun i => (1 + i) % u32Mod) := by
    rw [hsp, ← hfun]
    exact List.nil_append _
  have hlen : s.spawned.length = u32Mod + 1 := by
    rw [hsp2, List.length_map, List.length_range]
  refine ⟨s, hrun, ?_, ?_⟩
  · intro hp
    rw [hsp2] at hp
    have h1 := List.pairwise_iff_getElem.mp hp (u32Mod - 2) (u32Mod - 1)
      (by rw [List.length_map, List.length_range]; decide)
      (by rw [List.length_map, List.length_range]; decide) (by decide)
    simp only [List.getElem_map, List.getElem_range] at h1
    revert h1
    decide
  · intro hn
    have g1 : s.spawned[0]? = some 1 := by
      rw [hsp2, List.getElem?_map, List.getElem?_range (by decide)]
      decide
    have g2 : s.spawned[u32Mod]? = some 1 := by
      rw [hsp2, List.getElem?_map, List.getElem?_range (by decide)]
      decide
    have h0 : (0 : Nat) < s.spawned.length := by
      rw [hlen]
      decide
    have h02 := List.getElem?_inj h0 hn (g1.trans g2.symm)
    revert h02
    decide

/-- C3 (amended): as long as fewer than `2^32` successful spawns have
occurred — i.e. before the `u32` counter can wrap — the ids returned by the
successful spawns of any schedule are exactly `1, 2, 3, …` in order: they
start at 1, are strictly increasing, unique, and never reused.  (The
unrestricted claim fails only at the wrap, see
`C3_wraparound_counterexample`.) -/
theorem C3_ids_strictly_increasing :
    ∀ (ls : List Label) (s : Sys), run init ls = some s → countSpawns ls < u32Mod →
      s.spawned = (List.range (countSpawns ls)).map (fun i => 1 + i)
      ∧ s.spawned.Pairwise (· < ·)
      ∧ (0 < countSpawns ls → s.spawned.get? 0 = some 1) := by
  intro ls s hrun hb
  have hinv := reachable_inv hrun hb
  have hlen : s.spawned.length = countSpawns ls := by
    have h2 := run_spawned_count ls init s hrun
    simpa [init] using h2
  have hform := hinv.spawned_simple
  rw [hlen] at hform
  refine ⟨hform, ?_, ?_⟩
  · rw [hform]
    exact (List.pairwise_lt_range _).map _ (fun a b hab => by omega)
  · intro hpos
    rw [hform]
    cases hc : countSpawns ls with
    | zero => omega
    | succ n =>
      rw [List.range_succ_eq_map]
      simp

/-- Schedule for the C3 witness: two successful spawns. -/
def c3wLabels : List Label := [Label.spawnOk [] none, Label.spawnOk [] none]

/-- The state reached by `c3wLabels`: ids 1 and 2 were handed out. -/
def c3wSys : Sys :=
  ⟨3, [1, 2], [⟨1, [], 0, true⟩, ⟨2, [], 0, true⟩],
   [⟨1, none, WaiterPhase.waiting⟩, ⟨2, none, WaiterPhase.waiting⟩], [], [1, 2], []⟩

/-- C3 witness: the amended theorem at the concrete two-spawn schedule. -/
theorem C3_witness :
    c3wSys.spawned = (List.range (countSpawns c3wLabels)).map (fun i => 1 + i)
    ∧ c3wSys.spawned.Pairwise (· < ·)
    ∧ (0 < countSpawns c3wLabels → c3wSys.spawned.get? 0 = some 1) :=
  C3_ids_strictly_increasing c3wLabels c3wSys (by decide) (by decide)

/-- C4: at every reachable state, a session whose exit-waiter is still
blocked in `child.wait()` has no `exit` event, and once the waiter has passed
the wait it has exactly one `exit` event, carrying
`child.wait().ok().map(exit_code).unwrap_or(1)` — the process's exit code,
or the fixed non-zero sentinel `1` when the wait failed. -/
theorem C4_exit_event_code :
    ∀ (ls : List Label) (s : Sys), run init ls = some s → countSpawns ls < u32Mod →
      ∀ w ∈ s.waiters,
        exitsFor w.sid s.events =
          (if w.phase = WaiterPhase.waiting then []
           else [Event.exit w.sid (w.waitResult.getD 1)])
        ∧ (w.waitResult = none → w.phase ≠ WaiterPhase.waiting →
            exitsFor w.sid s.events = [Event.exit w.sid 1] ∧ (1 : Nat) ≠ 0) := by
  intro ls s hrun hb w hw
  have hinv := reachable_inv hrun hb
  refine ⟨hinv.waiter_inv w hw, fun hnone hph => ⟨?_, by decide⟩⟩
  rw [hinv.waiter_inv w hw, if_neg hph, hnone]
  rfl

/-- Schedule for the C4 witness: spawn with a failing wait, waiter returns. -/
def c4wLabels : List Label := [Label.spawnOk [] none, Label.waiterEmit 0]

/-- The state reached by `c4wLabels`: one exit event with sentinel code 1. -/
def c4wSys : Sys :=
  ⟨2, [1], [⟨1, [], 0, true⟩], [⟨1, none, WaiterPhase.emitted⟩], [Event.exit 1 1], [1], []⟩

/-- C4 witness: with a failed wait the single exit event carries code 1. -/
theorem C4_witness : exitsFor 1 c4wSys.events = [Event.exit 1 1] := by
  have h := C4_exit_event_code c4wLabels c4wSys (by decide) (by decide)
    ⟨1, none, WaiterPhase.emitted⟩ (by decide)
  exact h.1.trans (by decide)

/-- C5: the reader loop.  For any sequence of read outcomes delivering at
most `readerBufSize = 4096` bytes each, the events the loop emits are
exactly one `data` event per successful non-empty read — carrying the
lossy-decoded text, in read order — up to but excluding the first zero-byte
read or read error, after which nothing further is emitted; a reader step
never touches the registry, the waiters or the removal history; and invalid
bytes decode to the replacement character rather than failing
(`utf8Lossy` is total by construction). -/
theorem C5_reader_loop :
    ∀ (sid : Nat) (script : List ReadResult),
      (∀ r ∈ script, (bytesOf r).length ≤ readerBufSize) →
      readerEvents sid script =
        (script.takeWhile (fun r => !isTerm r)).map
          (fun r => Event.data sid (lossyString (bytesOf r)))
      ∧ (∀ (s s' : Sys) (i : Nat), stepReader s i = some s' →
          s'.registry = s.registry ∧ s'.waiters = s.waiters ∧ s'.removed = s.removed)
      ∧ utf8Lossy [0xFF, 97] = [replacementChar, 'a'] := by
  intro sid script hsz
  refine ⟨readerEvents_eq_takeWhile sid script, ?_, by decide⟩
  intro s s' i h
  have hfr := stepReader_frame h
  exact ⟨hfr.1, hfr.2.1, hfr.2.2.2.2⟩

/-- Read sequence for the C5 witness: one two-byte read, then a read error,
then a further (never reached) read. -/
def c5wScript : List ReadResult :=
  [ReadResult.ok [104, 105], ReadResult.err, ReadResult.ok [97]]

/-- C5 witness: the loop emits exactly one event, for the chunk before the
error, and decodes invalid bytes to the replacement character. -/
theorem C5_witness :
    readerEvents 1 c5wScript =
      (c5wScript.takeWhile (fun r => !isTerm r)).map
        (fun r => Event.data 1 (lossyString (bytesOf r)))
    ∧ utf8Lossy [0xFF, 97] = [replacementChar, 'a'] := by
  have h := C5_reader_loop 1 c5wScript (by decide)
  exact ⟨h.1, h.2.2⟩

/-- C6: for a well-formed session-id string whose id is absent from the
(unpoisoned) registry — never spawned, or already removed after its exit was
observed, including a second `kill` after the first kill's exit removed the
entry — `pty_write`, `pty_resize` and `pty_kill` all return the
`Unavailable session` error (the spec's `UnknownSession`), leave the
registry untouched, and (trace layer) the command handlers emit no event and
change no state. -/
theorem C6_unknown_session :
    ∀ (st : Reg) (sidStr : String) (id : Nat) (data : String) (outs : List WOut)
      (cols rows : Nat) (osr osk : Option String),
      parseU32 sidStr = some id → st.sessionsPoisoned = false →
      lookupA id st.sessions = none →
      pty_write st sidStr data outs = some (st, .error "Unavailable session")
      ∧ pty_resize st sidStr cols rows osr = (st, .error "Unavailable session")
      ∧ pty_kill st sidStr osk = (st, .error "Unavailable session")
      ∧ "Unavailable session" ≠ "invalid session_id"
      ∧ (∀ (s : Sys) (str : String), step s (Label.cmdWrite str) = some s ∧
          step s (Label.cmdResize str) = some s ∧ step s (Label.cmdKill str) = some s) := by
  intro st sidStr id data outs cols rows osr osk hp hpoison hlook
  refine ⟨?_, ?_, ?_, by decide, fun s str => ⟨rfl, rfl, rfl⟩⟩
  · simp [pty_write, hp, hpoison, hlook]
  · simp [pty_resize, hp, hpoison, hlook]
  · simp [pty_kill, hp, hpoison, hlook]

/-- Registry for the C6 witness: healthy lock, no session (e.g. after the
exit-waiter removed session 7). -/
def c6wReg : Reg := ⟨false, []⟩

/-- C6 witness: writing to / resizing / killing the absent session 7 all
return the `Unavailable session` error and leave the registry unchanged. -/
theorem C6_witness :
    pty_write c6wReg "7" "x" [] = some (c6wReg, Except.error "Unavailable session")
    ∧ pty_resize c6wReg "7" 80 24 none = (c6wReg, Except.error "Unavailable session")
    ∧ pty_kill c6wReg "7" none = (c6wReg, Except.error "Unavailable session") := by
  have h := C6_unknown_session c6wReg "7" 7 "x" [] 80 24 none none (by decide) rfl rfl
  exact ⟨h.1, h.2.1, h.2.2.1⟩

/-- Registry for the C7 counterexample: poisoned lock, one live session. -/
def c7cexReg : Reg := ⟨true, [(1, Session.init 80 24)]⟩

/-- C7, counterexample.  The claim demands that a failed guard acquisition be
surfaced as a fatal error on *every* path, including the exit-waiter's
registry removal.  But that path is
`if let Ok(mut sessions) = sessions_for_exit.lock() { sessions.remove(&id); }`:
with a poisoned registry lock the removal is silently skipped — the state is
returned unchanged (the entry leaks) and the surfaced-error component is
`none`.  No error is reported anywhere. -/
theorem C7_exit_waiter_silent_counterexample :
    exitWaiterRemove c7cexReg 1 = (c7cexReg, none) ∧
      c7cexReg.sessionsPoisoned = true ∧ lookupA 1 c7cexReg.sessions ≠ none := by
  exact ⟨rfl, rfl, by decide⟩

/-- C7 (amended): on the caller-facing paths a poisoned guard is a fatal,
surfaced error distinct from `Unavailable session` — the registry lock
yields `PtyState poisoned` in `pty_write`/`pty_resize`/`pty_kill` and in
`pty_spawn`'s insertion, and the per-session writer/master/killer locks
yield `writer poisoned`/`master poisoned`/`killer poisoned` — but on the
exit-waiter's registry-removal path a poisoned lock is silently ignored:
`exitWaiterRemove` never surfaces an error
(see `C7_exit_waiter_silent_counterexample`). -/
theorem C7_poisoning_surfaced_amended :
    ∀ (st : Reg) (sidStr : String) (id : Nat) (data : String) (outs : List WOut)
      (cols rows : Nat) (osr osk : Option String) (n rid : Nat),
      parseU32 sidStr = some id →
      (st.sessionsPoisoned = true →
        pty_write st sidStr data outs = some (st, .error "PtyState poisoned")
        ∧ pty_resize st sidStr cols rows osr = (st, .error "PtyState poisoned")
        ∧ pty_kill st sidStr osk = (st, .error "PtyState poisoned")
        ∧ (pty_spawnA st n cols rows SpawnEnv.ok).2.2.1 = .error "PtyState poisoned")
      ∧ (∀ sess, st.sessionsPoisoned = false → lookupA id st.sessions = some sess →
          (sess.writerPoisoned = true →
            pty_write st sidStr data outs = some (st, .error "writer poisoned"))
          ∧ (sess.masterPoisoned = true →
            pty_resize st sidStr cols rows osr = (st, .error "master poisoned"))
          ∧ (sess.killerPoisoned = true →
            pty_kill st sidStr osk = (st, .error "killer poisoned")))
      ∧ ("PtyState poisoned" ≠ "Unavailable session"
         ∧ "writer poisoned" ≠ "Unavailable session"
         ∧ "master poisoned" ≠ "Unavailable session"
         ∧ "killer poisoned" ≠ "Unavailable session")
      ∧ (exitWaiterRemove st rid).2 = none := by
  intro st sidStr id data outs cols rows osr osk n rid hp
  refine ⟨fun hpo => ⟨?_, ?_, ?_, ?_⟩, fun sess hpo hlook => ⟨?_, ?_, ?_⟩,
    ⟨by decide, by decide, by decide, by decide⟩, ?_⟩
  · simp [pty_write, hp, hpo]
  · simp [pty_resize, hp, hpo]
  · simp [pty_kill, hp, hpo]
  · simp [pty_spawnA, hpo]
  · intro hwp
    simp [pty_write, hp, hpo, hlook, hwp]
  · intro hmp
    simp [pty_resize, hp, hpo, hlook, hmp]
  · intro hkp
    simp [pty_kill, hp, hpo, hlook, hkp]
  · by_cases hpo : st.sessionsPoisoned <;> simp [exitWaiterRemove, hpo]

/-- Registry for the C7 witness: poisoned lock, empty table. -/
def c7wReg : Reg := ⟨true, []⟩

/-- C7 witness: with a poisoned registry lock, `pty_write` surfaces the
distinct fatal error while the exit-waiter's removal path surfaces nothing. -/
theorem C7_witness :
    pty_write c7wReg "5" "x" [] = some (c7wReg, Except.error "PtyState poisoned")
    ∧ (exitWaiterRemove c7wReg 5).2 = none := by
  have h := C7_poisoning_surfaced_amended c7wReg "5" 5 "x" [] 80 24 none none 1 5 (by decide)
  exact ⟨(h.1 rfl).1, h.2.2.2⟩

/-- C8: a `pty_spawn` that fails at PTY allocation (`openpty`), at
`take_writer`, at `try_clone_reader` or at `spawn_command` returns exactly
the underlying error, leaves the registry and the id counter unchanged, and
starts no background thread; a successful spawn (unpoisoned lock) inserts
the new session and only then reports the threads started.  In the trace
layer a failed spawn is a stutter step, and immediately after a successful
spawn the id is already registered while both freshly created tasks are in
their initial, not-yet-run state (reader at position 0 and alive, waiter
still waiting) and no event has been emitted. -/
theorem C8_spawn_failure_clean :
    (∀ (st : Reg) (n cols rows : Nat) (e : String),
      pty_spawnA st n cols rows (SpawnEnv.openptyErr e) = (st, n, .error e, false)
      ∧ pty_spawnA st n cols rows (SpawnEnv.writerErr e) = (st, n, .error e, false)
      ∧ pty_spawnA st n cols rows (SpawnEnv.readerErr e) = (st, n, .error e, false)
      ∧ pty_spawnA st n cols rows (SpawnEnv.commandErr e) = (st, n, .error e, false))
    ∧ (∀ (st : Reg) (n cols rows : Nat), st.sessionsPoisoned = false →
        pty_spawnA st n cols rows SpawnEnv.ok =
          ({st with sessions := insertA n (Session.init cols rows) st.sessions},
           (n + 1) % u32Mod, .ok n, true))
    ∧ (∀ (s : Sys) (script : List ReadResult) (w : Option Nat),
        step s Label.spawnFail = some s
        ∧ step s (Label.spawnOk script w) = some (stepSpawn s script w)
        ∧ (stepSpawn s script w).registry = s.registry ++ [s.nextId]
        ∧ (stepSpawn s script w).readers = s.readers ++ [⟨s.nextId, script, 0, true⟩]
        ∧ (stepSpawn s script w).waiters = s.waiters ++ [⟨s.nextId, w, WaiterPhase.waiting⟩]
        ∧ (stepSpawn s script w).events = s.events) := by
  refine ⟨fun st n cols rows e => ⟨rfl, rfl, rfl, rfl⟩, ?_,
    fun s script w => ⟨rfl, rfl, rfl, rfl, rfl, rfl⟩⟩
  intro st n cols rows hpo
  simp [pty_spawnA, hpo]

/-- C8 witness: a concrete successful spawn inserts session 1 before
reporting the threads started. -/
theorem C8_witness :
    pty_spawnA ⟨false, []⟩ 1 80 24 SpawnEnv.ok =
      (⟨false, [(1, Session.init 80 24)]⟩, 2, Except.ok 1, true) := by
  have h := C8_spawn_failure_clean.2.1 ⟨false, []⟩ 1 80 24 rfl
  exact h.trans rfl

/-- C9: for a session present in the (unpoisoned) registry, `pty_write`
forwards the UTF-8 bytes of `data` verbatim and in order to the child's
input stream via `write_all`: the call returns success exactly when the
entire byte sequence was appended to the stream, and on a write error only a
strict prefix was delivered and the underlying error is surfaced. -/
theorem C9_write_forwards_bytes :
    ∀ (st : Reg) (sidStr : String) (id : Nat) (data : String) (outs : List WOut)
      (sess : Session) (st' : Reg) (res : Except String Unit),
      parseU32 sidStr = some id → st.sessionsPoisoned = false →
      lookupA id st.sessions = some sess → sess.writerPoisoned = false →
      pty_write st sidStr data outs = some (st', res) →
      (res = .ok () →
        lookupA id st'.sessions = some {sess with written := sess.written ++ strBytes data})
      ∧ (∀ e, res = .error e →
          ∃ p, p <+: strBytes data ∧ p.length < (strBytes data).length ∧
            lookupA id st'.sessions = some {sess with written := sess.written ++ p}) := by
  intro st sidStr id data outs sess st' res hp hpoison hlook hwp hcall
  cases hw : writeAll outs sess.written (strBytes data) with
  | none =>
    have hnone : pty_write st sidStr data outs = none := by
      simp [pty_write, hp, hpoison, hlook, hwp, hw]
    rw [hnone] at hcall
    exact absurd hcall (by simp)
  | some pr =>
    obtain ⟨sink, r2⟩ := pr
    have heq : pty_write st sidStr data outs =
        some ({st with sessions := updateA id {sess with written := sink} st.sessions}, r2) := by
      simp [pty_write, hp, hpoison, hlook, hwp, hw]
    rw [heq] at hcall
    simp only [Option.some.injEq, Prod.mk.injEq] at hcall
    obtain ⟨hst', hres⟩ := hcall
    subst hst'
    subst hres
    cases r2 with
    | ok u =>
      have hs := writeAll_ok outs _ _ _ hw
      constructor
      · intro _
        rw [← hs]
        exact lookupA_updateA hlook
      · intro e he
        exact absurd he (by simp)
    | error e2 =>
      constructor
      · intro hok
        exact absurd hok (by simp)
      · intro e he
        obtain ⟨p, h1, h2, h3⟩ := writeAll_err outs _ _ _ _ hw
        refine ⟨p, h1, h2, ?_⟩
        rw [← h3]
        exact lookupA_updateA hlook

/-- Registry for the C9 witness: one healthy session under id 3. -/
def c9wReg : Reg := ⟨false, [(3, Session.init 80 24)]⟩

/-- Registry after the C9 witness write: the byte of `"x"` was absorbed. -/
def c9wRegOut : Reg := ⟨false, [(3, ⟨false, false, false, [120], (80, 24), false⟩)]⟩

/-- C9 witness: writing `"x"` to session 3 appends exactly byte `120` to the
child's input stream. -/
theorem C9_witness :
    lookupA 3 c9wRegOut.sessions =
      some ⟨false, false, false, [120], (80, 24), false⟩ := by
  have h := C9_write_forwards_bytes c9wReg "3" 3 "x" [WOut.accept 1] (Session.init 80 24)
    c9wRegOut (Except.ok ()) (by decide) rfl (by decide) rfl (by rfl)
  exact (h.1 rfl).trans (by decide)

/-- C10: a session-id string that does not parse as a `u32` (empty, signs,
non-digits, overflow) makes `pty_write`, `pty_resize` and `pty_kill` fail
with the `invalid session_id` parse error — distinct from
`Unavailable session` — for *every* registry state, which is returned
unchanged: the registry is never consulted (the parse precedes the lock). -/
theorem C10_invalid_id_parse :
    ∀ (sidStr : String), parseU32 sidStr = none →
      (∀ (st : Reg) (data : String) (outs : List WOut),
        pty_write st sidStr data outs = some (st, .error "invalid session_id"))
      ∧ (∀ (st : Reg) (cols rows : Nat) (osr : Option String),
        pty_resize st sidStr cols rows osr = (st, .error "invalid session_id"))
      ∧ (∀ (st : Reg) (osk : Option String),
        pty_kill st sidStr osk = (st, .error "invalid session_id"))
      ∧ "invalid session_id" ≠ "Unavailable session" := by
  intro sidStr hp
  exact ⟨fun st data outs => by simp [pty_write, hp],
    fun st cols rows osr => by simp [pty_resize, hp],
    fun st osk => by simp [pty_kill, hp],
    by decide⟩

/-- C10 witness: the non-numeric id `"abc"` is rejected by parse on all
three commands, with the registry state returned unchanged. -/
theorem C10_witness :
    pty_write ⟨false, []⟩ "abc" "x" [] =
      some (⟨false, []⟩, Except.error "invalid session_id")
    ∧ pty_resize ⟨false, []⟩ "abc" 80 24 none =
      (⟨false, []⟩, Except.error "invalid session_id")
    ∧ pty_kill ⟨false, []⟩ "abc" none =
      (⟨false, []⟩, Except.error "invalid session_id") := by
  have h := C10_invalid_id_parse "abc" (by decide)
  exact ⟨h.1 ⟨false, []⟩ "x" [], h.2.1 ⟨false, []⟩ 80 24 none, h.2.2.1 ⟨false, []⟩ none⟩

end XTerm
